import Mathlib

/-!
Verification development for `sublime_color_scheme_converter.py`.

Strings are modelled as `List Char`.  Python floats are idealized as
exact fractions: the type `Frac` below is an unnormalized pair
numerator / denominator with the denominator kept positive by
construction (no normalization, so everything reduces in the kernel),
bridged to `ℚ` by `Frac.val`.  IEEE-754 rounding is NOT modelled: every
concrete input evaluated in a claim theorem uses only float arithmetic
that is exact in binary64 as well (dyadic alphas such as 0.5, small
integers, and the branch values of the evaluated HSL inputs), and the
universally quantified statement about alpha modifiers (claim 4) is
phrased so that it does not depend on the rounded numeric value of the
alpha byte.  Python `int()` truncates toward zero and is modelled by
`Int.tdiv`; Python 02x hex rendering is modelled by `toHex2` /
`format02x`.
-/

set_option maxRecDepth 8192

namespace Conv

/-- String literal to the `List Char` representation used throughout. -/
def lc (s : String) : List Char := s.data

/-- Exact fraction: numerator and denominator, denominator positive by
construction in every operation below (no normalization, so all
operations reduce in the kernel). -/
structure Frac where
  n : Int
  d : Int
deriving DecidableEq, Repr

/-- Embed an integer. -/
def Frac.ofInt (i : Int) : Frac := ⟨i, 1⟩

/-- Exact addition. -/
def Frac.add (a b : Frac) : Frac := ⟨a.n * b.d + b.n * a.d, a.d * b.d⟩

/-- Exact subtraction. -/
def Frac.sub (a b : Frac) : Frac := ⟨a.n * b.d - b.n * a.d, a.d * b.d⟩

/-- Exact multiplication. -/
def Frac.mul (a b : Frac) : Frac := ⟨a.n * b.n, a.d * b.d⟩

/-- Exact division (sign moved to the numerator to keep `d` positive). -/
def Frac.div (a b : Frac) : Frac :=
  if 0 ≤ b.n then ⟨a.n * b.d, a.d * b.n⟩ else ⟨-(a.n * b.d), -(a.d * b.n)⟩

/-- Numeric comparison `<` (valid because denominators are positive). -/
def Frac.blt (a b : Frac) : Bool := a.n * b.d < b.n * a.d

/-- Numeric comparison `≤`. -/
def Frac.ble (a b : Frac) : Bool := a.n * b.d ≤ b.n * a.d

/-- Numeric equality test (Python `==` on floats). -/
def Frac.beqv (a b : Frac) : Bool := a.n * b.d = b.n * a.d

/-- Numeric zero test. -/
def Frac.isZero (a : Frac) : Bool := a.n = 0

/-- Mathematical floor (`Int./` is euclidean division, which floors for
the positive denominators maintained here). -/
def Frac.floorv (a : Frac) : Int := a.n / a.d

/-- Python `int()` on a float: truncation toward zero. -/
def pyInt (a : Frac) : Int := Int.tdiv a.n a.d

/-- Fractional part, as computed by Python `x % 1.0`. -/
def Frac.fract (a : Frac) : Frac := a.sub (Frac.ofInt a.floorv)

/-- The rational value of a fraction. -/
def Frac.val (a : Frac) : ℚ := (a.n : ℚ) / (a.d : ℚ)

/-! ### Characters and digit strings -/

/-- Python regex `\d` (ASCII). -/
def isDigitC (c : Char) : Bool := c.isDigit

/-- Python regex `\s` (ASCII whitespace, which is all the source documents
contain). -/
def isSpaceC (c : Char) : Bool :=
  c == ' ' || c == '\t' || c == '\n' || c == '\x0b' || c == '\x0c' || c == '\r'

/-- The character class `[0-9,a-z,A-Z]` of `re_hex` — note that it
contains the comma, exactly as in the source pattern. -/
def hexClass (c : Char) : Bool := c.isDigit || c == ',' || c.isLower || c.isUpper

/-- The character class `[a-z,A-Z,0-9]` of `convert_name`'s pattern —
again including the comma, as in the source. -/
def convClass (c : Char) : Bool := c.isLower || c.isUpper || c == ',' || c.isDigit

/-- Numeric value of a decimal digit string (Python `int(s)`). -/
def digitsVal (l : List Char) : Nat := l.foldl (fun acc c => 10 * acc + (c.toNat - 48)) 0

/-- Maximal leading run of decimal digits and the remainder. -/
def digitRun (l : List Char) : List Char × List Char :=
  (l.takeWhile isDigitC, l.dropWhile isDigitC)

/-- Python `float(s)` for the digit/dot-shaped tokens produced by the
regexes (`12`, `12.`, `0.25`, ...), idealized as the exact decimal
rational.  (The real `float()` rounds to the nearest binary64 double;
the idealization coincides with it on integer and dyadic tokens such as
`0.5`, and no claim theorem relies on the rounded value elsewhere.) -/
def parseFloat (l : List Char) : Frac :=
  let ip := l.takeWhile isDigitC
  let rest := l.dropWhile isDigitC
  match rest with
  | '.' :: fr =>
    let fd := fr.takeWhile isDigitC
    ⟨(digitsVal ip : Int) * (10 : Int) ^ fd.length + (digitsVal fd : Int), (10 : Int) ^ fd.length⟩
  | _ => ⟨(digitsVal ip : Int), 1⟩

/-- Value of a single hexadecimal digit (either case), if it is one. -/
def hexDigitVal (c : Char) : Option Nat :=
  if c.isDigit then some (c.toNat - 48)
  else if 'a' ≤ c && c ≤ 'f' then some (c.toNat - 87)
  else if 'A' ≤ c && c ≤ 'F' then some (c.toNat - 55)
  else none

def parseHexAux : List Char → Nat → Option Nat
  | [], acc => some acc
  | c :: rest, acc =>
    match hexDigitVal c with
    | some v => parseHexAux rest (16 * acc + v)
    | none => none

/-- Python `int(s, 16)`: `none` models the `ValueError` raised on a
non-hexadecimal string (including the empty string). -/
def parseHexNat : List Char → Option Nat
  | [] => none
  | l => parseHexAux l 0

/-- Lowercase hexadecimal digit test. -/
def isLowerHexDigit (c : Char) : Bool := c.isDigit || ('a' ≤ c && c ≤ 'f')

/-- Big-endian lowercase hexadecimal digits of a positive number
(fuel-indexed so that the kernel can evaluate it). -/
def hexCharsAux : Nat → Nat → List Char
  | 0, _ => []
  | fuel + 1, m => if m = 0 then [] else hexCharsAux fuel (m / 16) ++ [Nat.digitChar (m % 16)]

def hexChars (m : Nat) : List Char := hexCharsAux (m + 1) m

/-- Python `"{:02x}".format (m)` for a natural number: lowercase hex,
left-padded with `0` to at least two characters, never truncated. -/
def toHex2 (m : Nat) : List Char :=
  if m = 0 then ['0', '0']
  else if m < 16 then ['0', Nat.digitChar m]
  else hexChars m

/-- Python `"{:02x}".format (i)` for a possibly negative integer (the
zero-padding never fires for negatives at width 2). -/
def format02x (i : Int) : List Char :=
  if i < 0 then '-' :: hexChars i.natAbs else toHex2 i.toNat

/-! ### Python dynamic values

The alpha value travelling through the program is dynamically typed:
`None`, a regex-captured string, or a float.  Truthiness follows Python
(`None` and `""` and `0.0` are falsy). -/

inductive PyVal where
  | none
  | str (s : List Char)
  | num (q : Frac)
deriving DecidableEq

def PyVal.truthy : PyVal → Bool
  | .none => false
  | .str s => !s.isEmpty
  | .num q => !q.isZero

/-- Python `float (a)` on a value known to be a captured numeric string or
a number (the only cases the source applies it to). -/
def PyVal.toFrac : PyVal → Frac
  | .none => Frac.ofInt 0
  | .str s => parseFloat s
  | .num q => q

/-- Exceptions the source can raise while converting a document. -/
inductive PyErr where
  | keyError (field : String)
  | attributeError
  | valueError
deriving DecidableEq

instance {ε α : Type} [DecidableEq ε] [DecidableEq α] : DecidableEq (Except ε α)
  | Except.error a, Except.error b =>
    decidable_of_iff (a = b) (by constructor <;> (intro h; cases h; rfl))
  | Except.error _, Except.ok _ => isFalse (by intro h; cases h)
  | Except.ok _, Except.error _ => isFalse (by intro h; cases h)
  | Except.ok a, Except.ok b =>
    decidable_of_iff (a = b) (by constructor <;> (intro h; cases h; rfl))

/-! ### The regular expressions of the source, as executable matchers

Each `re*TryAt` attempts a match anchored at the start of the given
suffix; each `re*Search` scans left to right, which is exactly
`re.search` for these patterns (whose backtracking is deterministic:
every greedy run is followed by a character that cannot extend it). -/

def stripPfx : List Char → List Char → Option (List Char)
  | [], l => some l
  | _ :: _, [] => Option.none
  | p :: ps, c :: cs => if p = c then stripPfx ps cs else Option.none

/-- `alpha\(((0\.)?[0-9]+)\)` anchored: returns the captured number
(group 1) as a float. -/
def reAlphaTryAt (l : List Char) : Option Frac :=
  match stripPfx (lc "alpha(") l with
  | Option.none => Option.none
  | some rest =>
    match rest with
    | '0' :: '.' :: r2 =>
      let p := digitRun r2
      if p.1 ≠ [] ∧ p.2.head? = some ')' then some (parseFloat ('0' :: '.' :: p.1))
      else
        let q := digitRun rest
        if q.1 ≠ [] ∧ q.2.head? = some ')' then some (parseFloat q.1) else Option.none
    | _ =>
      let q := digitRun rest
      if q.1 ≠ [] ∧ q.2.head? = some ')' then some (parseFloat q.1) else Option.none

def reAlphaSearch : List Char → Option Frac
  | [] => Option.none
  | c :: rest =>
    match reAlphaTryAt (c :: rest) with
    | some q => some q
    | Option.none => reAlphaSearch rest

/-- `(#[0-9,a-z,A-Z]{6})([0-9,a-z,A-Z]{2})?` anchored: returns
(group 1, group 2). -/
def reHexTryAt (l : List Char) : Option (List Char × Option (List Char)) :=
  match l with
  | [] => Option.none
  | c :: rest =>
    if c = '#' then
      if (rest.take 6).length = 6 ∧ (rest.take 6).all hexClass = true then
        some ('#' :: rest.take 6,
          if ((rest.drop 6).take 2).length = 2 ∧ ((rest.drop 6).take 2).all hexClass = true
          then some ((rest.drop 6).take 2) else Option.none)
      else Option.none
    else Option.none

def reHexSearch : List Char → Option (List Char × Option (List Char))
  | [] => Option.none
  | c :: rest =>
    match reHexTryAt (c :: rest) with
    | some r => some r
    | Option.none => reHexSearch rest

/-- The optional tail `(,\s?(\d+\.?\d*))?\)` shared by `re_rgb` and
`re_hsl`: consumes the rest of the match and returns group 5. -/
def reNumTail (l : List Char) : Option (Option (List Char)) :=
  match l with
  | ',' :: r1 =>
    let r2 := match r1 with
      | c :: t => if isSpaceC c then t else r1
      | [] => r1
    let p := digitRun r2
    if p.1 = [] then Option.none
    else
      match p.2 with
      | '.' :: r3 =>
        let q := digitRun r3
        match q.2 with
        | ')' :: _ => some (some (p.1 ++ '.' :: q.1))
        | _ => Option.none
      | ')' :: _ => some (some p.1)
      | _ => Option.none
  | ')' :: _ => some Option.none
  | _ => Option.none

/-- One `,\s?(\d+)` group followed by a given literal. -/
def reIntGroup (l : List Char) : Option (List Char × List Char) :=
  match l with
  | ',' :: r1 =>
    let r2 := match r1 with
      | c :: t => if isSpaceC c then t else r1
      | [] => r1
    let p := digitRun r2
    if p.1 = [] then Option.none else some (p.1, p.2)
  | _ => Option.none

/-- `rgb\((\d+),\s?(\d+),\s?(\d+)(,\s?(\d+\.?\d*))?\)` anchored. -/
def reRgbTryAt (l : List Char) : Option (List Char × List Char × List Char × Option (List Char)) :=
  match stripPfx (lc "rgb(") l with
  | Option.none => Option.none
  | some r1 =>
    let p1 := digitRun r1
    if p1.1 = [] then Option.none
    else
      match reIntGroup p1.2 with
      | Option.none => Option.none
      | some (d2, r2) =>
        match reIntGroup r2 with
        | Option.none => Option.none
        | some (d3, r3) =>
          match reNumTail r3 with
          | Option.none => Option.none
          | some g5 => some (p1.1, d2, d3, g5)

def reRgbSearch : List Char → Option (List Char × List Char × List Char × Option (List Char))
  | [] => Option.none
  | c :: rest =>
    match reRgbTryAt (c :: rest) with
    | some r => some r
    | Option.none => reRgbSearch rest

/-- `hsl\((\d+),\s?(\d+)%,\s?(\d+)%(,\s?(\d+\.?\d*))?\)` anchored. -/
def reHslTryAt (l : List Char) : Option (List Char × List Char × List Char × Option (List Char)) :=
  match stripPfx (lc "hsl(") l with
  | Option.none => Option.none
  | some r1 =>
    let p1 := digitRun r1
    if p1.1 = [] then Option.none
    else
      match reIntGroup p1.2 with
      | Option.none => Option.none
      | some (d2, r2) =>
        match r2 with
        | '%' :: r2b =>
          match reIntGroup r2b with
          | Option.none => Option.none
          | some (d3, r3) =>
            match r3 with
            | '%' :: r3b =>
              match reNumTail r3b with
              | Option.none => Option.none
              | some g5 => some (p1.1, d2, d3, g5)
            | _ => Option.none
        | _ => Option.none

def reHslSearch : List Char → Option (List Char × List Char × List Char × Option (List Char))
  | [] => Option.none
  | c :: rest =>
    match reHslTryAt (c :: rest) with
    | some r => some r
    | Option.none => reHslSearch rest

/-- `var\([^\)]+\)` anchored: returns the whole match (`match.group()`). -/
def reVarTryAt (l : List Char) : Option (List Char) :=
  match stripPfx (lc "var(") l with
  | Option.none => Option.none
  | some r =>
    let body := r.takeWhile (fun c => c != ')')
    if body = [] then Option.none
    else
      match r.dropWhile (fun c => c != ')') with
      | ')' :: _ => some (lc "var(" ++ body ++ [')'])
      | _ => Option.none

def reVarSearch : List Char → Option (List Char)
  | [] => Option.none
  | c :: rest =>
    match reVarTryAt (c :: rest) with
    | some r => some r
    | Option.none => reVarSearch rest

/-! ### `colorsys.hls_to_rgb`, in exact arithmetic -/

/-- `colorsys._v`. -/
def vAux (m1 m2 hue0 : Frac) : Frac :=
  let hue := hue0.fract
  if hue.blt ⟨1, 6⟩ then m1.add (((m2.sub m1).mul hue).mul (Frac.ofInt 6))
  else if hue.blt ⟨1, 2⟩ then m2
  else if hue.blt ⟨2, 3⟩ then m1.add (((m2.sub m1).mul ((⟨2, 3⟩ : Frac).sub hue)).mul (Frac.ofInt 6))
  else m1

/-- `colorsys.hls_to_rgb` (note the argument order hue, lightness,
saturation).  In exact rational arithmetic this is the standard
HSL→RGB transform. -/
def hls_to_rgb (h l s : Frac) : Frac × Frac × Frac :=
  if s.isZero then (l, l, l)
  else
    let m2 := if l.ble ⟨1, 2⟩ then l.mul ((Frac.ofInt 1).add s) else (l.add s).sub (l.mul s)
    let m1 := ((Frac.ofInt 2).mul l).sub m2
    (vAux m1 m2 (h.add ⟨1, 3⟩), vAux m1 m2 h, vAux m1 m2 (h.sub ⟨1, 3⟩))

/-! ### The color functions of the source -/

/-- `alpha_to_hex (a) = "{:02x}".format (int (255*float (a)))`, in the
exact-fraction idealization of float arithmetic (it coincides with the
program whenever the binary64 computation is exact; the rounding itself
is not modelled). -/
def alpha_to_hex (a : Frac) : List Char := format02x (pyInt ((Frac.ofInt 255).mul a))

/-- `hexa_to_hex (hex, a) = hex[:7] + alpha_to_hex (a)`. -/
def hexa_to_hex (hex : List Char) (a : Frac) : List Char := hex.take 7 ++ alpha_to_hex a

/-- `rgb_to_hex (r, g, b, a=None)`. -/
def rgb_to_hex (r g b : Int) (a : PyVal) : List Char :=
  ('#' :: (format02x r ++ format02x g ++ format02x b)) ++
    (if a.truthy then alpha_to_hex a.toFrac else [])

/-- `get_alpha_adjuster (string, default=None)`. -/
def get_alpha_adjuster (s : List Char) (default : PyVal) : PyVal :=
  match reAlphaSearch s with
  | some q => PyVal.num q
  | Option.none => default

/-- `get_alpha_hex (hexcode)`: embedded alpha byte of an 8+-character
hexcode; `.error` models the `ValueError` of `int (_, 16)` on
non-hexadecimal text. -/
def get_alpha_hex (hexcode : List Char) : Except PyErr (Option Nat) :=
  if hexcode.length < 8 then Except.ok Option.none
  else
    match parseHexNat (hexcode.drop 7) with
    | some v => Except.ok (some v)
    | Option.none => Except.error PyErr.valueError

/-- `match_hex (string)`. -/
def match_hex (s : List Char) : Option (List Char) :=
  match reHexSearch s with
  | Option.none => Option.none
  | some (g1, g2) =>
    let alpha := get_alpha_adjuster s PyVal.none
    if alpha.truthy then some (g1 ++ alpha_to_hex alpha.toFrac)
    else
      match g2 with
      | some t => some (g1 ++ t)
      | Option.none => some g1

/-- `match_rgb (string)`. -/
def match_rgb (s : List Char) : Option (List Char) :=
  match reRgbSearch s with
  | Option.none => Option.none
  | some (d1, d2, d3, g5) =>
    let a := get_alpha_adjuster s (match g5 with
      | some t => PyVal.str t
      | Option.none => PyVal.none)
    some (rgb_to_hex (digitsVal d1 : Int) (digitsVal d2 : Int) (digitsVal d3 : Int) a)

/-- `match_hsl (string)` — note the source's `255*int (v)` (truncating
each channel fraction *before* scaling). -/
def match_hsl (s : List Char) : Option (List Char) :=
  match reHslSearch s with
  | Option.none => Option.none
  | some (d1, d2, d3, g5) =>
    let h := (Frac.ofInt (digitsVal d1)).div (Frac.ofInt 360)
    let sat := (Frac.ofInt (digitsVal d2)).div (Frac.ofInt 100)
    let lig := (Frac.ofInt (digitsVal d3)).div (Frac.ofInt 100)
    let a := get_alpha_adjuster s (match g5 with
      | some t => PyVal.str t
      | Option.none => PyVal.none)
    let rgbv := hls_to_rgb h lig sat
    some (rgb_to_hex (255 * pyInt rgbv.1) (255 * pyInt rgbv.2.1) (255 * pyInt rgbv.2.2) a)

/-- Python falsiness of the `hexcode` variable in `try_match_color`
(`None` or the empty string). -/
def optStrFalsy : Option (List Char) → Bool
  | Option.none => true
  | some [] => true
  | some (_ :: _) => false

/-- `try_match_color (string)`. -/
def try_match_color (s : List Char) : Except PyErr (List Char) :=
  let h1 := match_hex s
  let h2 := if optStrFalsy h1 then match_rgb s else h1
  let h3 := if optStrFalsy h2 then match_hsl s else h2
  if optStrFalsy h3 then Except.ok s
  else
    let hc := h3.getD []
    match get_alpha_hex hc with
    | Except.error e => Except.error e
    | Except.ok emb =>
      let alpha := get_alpha_adjuster s (match emb with
        | some v => PyVal.num (Frac.ofInt v)
        | Option.none => PyVal.none)
      if alpha.truthy then Except.ok (hexa_to_hex (hc.take 7) alpha.toFrac)
      else Except.ok hc

/-! ### Key and scope normalization -/

/-- `convert_name (string)`: `re.sub ("_([a-z,A-Z,0-9])", upper (group 1),
string)`, i.e. the left-to-right non-overlapping substitution scan of
that pattern. -/
def convert_name : List Char → List Char
  | [] => []
  | [c] => [c]
  | c1 :: c2 :: rest =>
    if c1 = '_' ∧ convClass c2 = true then c2.toUpper :: convert_name rest
    else c1 :: convert_name (c2 :: rest)

/-- The substitution `re.sub ("\s(-|\|)\s", ", ", _)` of `parse_scope`. -/
def scopeSub1 : List Char → List Char
  | [] => []
  | [c] => [c]
  | [c1, c2] => [c1, c2]
  | a :: b :: c :: rest =>
    if isSpaceC a = true ∧ (b = '-' ∨ b = '|') ∧ isSpaceC c = true then
      ',' :: ' ' :: scopeSub1 rest
    else a :: scopeSub1 (b :: c :: rest)

/-- The substitution `re.sub ("\s*(\(|\))\s*", " ", _)` of `parse_scope`
(fuel-indexed scan; the fuel `length l` is enough because every step
consumes at least one character). -/
def scopeSub2Aux : Nat → List Char → List Char
  | 0, l => l
  | _ + 1, [] => []
  | fuel + 1, c :: rest =>
    match (c :: rest).dropWhile isSpaceC with
    | p :: r3 =>
      if p = '(' ∨ p = ')' then ' ' :: scopeSub2Aux fuel (r3.dropWhile isSpaceC)
      else c :: scopeSub2Aux fuel rest
    | [] => c :: scopeSub2Aux fuel rest

def scopeSub2 (l : List Char) : List Char := scopeSub2Aux l.length l

/-- `parse_scope (scope)`. -/
def parse_scope (scope : List Char) : List Char := scopeSub2 (scopeSub1 (convert_name scope))

/-! ### Variable resolution and the document pipeline -/

/-- Python `str.replace (old, new)`: replace every non-overlapping
occurrence, left to right (fuel-indexed; the pattern is nonempty at the
only call site). -/
def replaceAllAux : Nat → List Char → List Char → List Char → List Char
  | 0, l, _, _ => l
  | _ + 1, [], _, _ => []
  | fuel + 1, c :: rest, pat, rep =>
    if pat ≠ [] ∧ pat.isPrefixOf (c :: rest) then
      rep ++ replaceAllAux fuel ((c :: rest).drop pat.length) pat rep
    else c :: replaceAllAux fuel rest pat rep

def replaceAll (l pat rep : List Char) : List Char := replaceAllAux l.length l pat rep

/-- An insertion-ordered string dictionary (Python `dict`), as an
association list with unique keys. -/
abbrev Dict := List (List Char × List Char)

/-- `d[k]` (first match; keys are unique in a `dict`). -/
def dictGet (d : Dict) (k : List Char) : Option (List Char) :=
  match d with
  | [] => Option.none
  | p :: rest => if p.1 = k then some p.2 else dictGet rest k

/-- `d[k] = v`: overwrite in place if present (keeping the key's
position), else append. -/
def dictSet (d : Dict) (k v : List Char) : Dict :=
  match d with
  | [] => [(k, v)]
  | p :: rest => if p.1 = k then (p.1, v) :: rest else p :: dictSet rest k v

/-- `d.pop (k, None)`: remove the entry if present. -/
def dictPop (d : Dict) (k : List Char) : Option (List Char) × Dict :=
  match d with
  | [] => (Option.none, [])
  | p :: rest =>
    if p.1 = k then (some p.2, rest)
    else
      let r := dictPop rest k
      (r.1, p :: r.2)

/-- Truthiness of the `variables` value (`None` or `{}` are falsy). -/
def dictTruthy : Option Dict → Bool
  | Option.none => false
  | some [] => false
  | some (_ :: _) => true

/-- `parse_color (key, variables)`.  `variables = Option.none` models the
Python value `None` (document had no `vars` field); the
`.error .attributeError` branch is `None.get`, an `AttributeError`. -/
def parse_color (key : List Char) (vars : Option Dict) : Except PyErr (List Char) :=
  if dictTruthy vars = true ∧ (dictGet (vars.getD []) key).isSome then
    try_match_color ((dictGet (vars.getD []) key).getD [])
  else
    match reVarSearch key with
    | some v =>
      match vars with
      | Option.none => Except.error PyErr.attributeError
      | some tbl => try_match_color (replaceAll key v ((dictGet tbl v).getD v))
    | Option.none => try_match_color key

def parseSettingsAux (vars : Option Dict) : Dict → Dict → Except PyErr Dict
  | [], parsed => Except.ok parsed
  | (k, v) :: rest, parsed =>
    match parse_color v vars with
    | Except.error e => Except.error e
    | Except.ok pv => parseSettingsAux vars rest (dictSet parsed (convert_name k) pv)

/-- `parse_settings (settings, variables)`. -/
def parse_settings (settings : Dict) (vars : Option Dict) : Except PyErr Dict :=
  parseSettingsAux vars settings []

/-- One output rule record. -/
structure Rule where
  name : Option (List Char)
  scope : Option (List Char)
  settings : Dict
deriving DecidableEq

def parseRulesAux (vars : Option Dict) : List Dict → Except PyErr (List Rule)
  | [] => Except.ok []
  | settings :: rest =>
    let pn := dictPop settings (lc "name")
    let ps := dictPop pn.2 (lc "scope")
    let rName : Option (List Char) :=
      match pn.1 with
      | some n => if n.isEmpty then Option.none else some n
      | Option.none => Option.none
    let rScope : Option (List Char) :=
      match ps.1 with
      | some sc => if sc.isEmpty then Option.none else some (parse_scope sc)
      | Option.none => Option.none
    match parse_settings ps.2 vars with
    | Except.error e => Except.error e
    | Except.ok stg =>
      match parseRulesAux vars rest with
      | Except.error e => Except.error e
      | Except.ok rs => Except.ok ({ name := rName, scope := rScope, settings := stg } :: rs)

/-- `parse_rules (rules, variables)`. -/
def parse_rules (rules : List Dict) (vars : Option Dict) : Except PyErr (List Rule) :=
  parseRulesAux vars rules

/-- The source document handed to `parse` (`Option.none` = absent key). -/
structure Source where
  name : Option (List Char)
  author : Option (List Char)
  vars : Option Dict
  globals : Option Dict
  rules : Option (List Dict)

/-- The output record of `parse`. -/
structure Theme where
  name : List Char
  author : List Char
  settings : List Rule
deriving DecidableEq

/-- The in-place canonicalization loop over the variables dictionary:
`for key in list (variables): variables["var({})".format (key)] =
vars.pop (key)`. -/
def canonVarsStep (d : Dict) (key : List Char) : Dict :=
  let p := dictPop d key
  match p.1 with
  | some v => dictSet p.2 (lc "var(" ++ key ++ lc ")") v
  | Option.none => d

def canonVars (d : Dict) : Dict := (d.map Prod.fst).foldl canonVarsStep d

/-- `parse (source)`.  The required-field lookups `source["globals"]` and
`source["rules"]` happen, in that order, before anything else can fail;
a missing key is a `KeyError` naming the key. -/
def parse (source : Source) : Except PyErr Theme :=
  match source.globals with
  | Option.none => Except.error (PyErr.keyError "globals")
  | some globals_ =>
    match source.rules with
    | Option.none => Except.error (PyErr.keyError "rules")
    | some rules =>
      let vars :=
        if dictTruthy source.vars then Option.map canonVars source.vars
        else source.vars
      match parse_settings globals_ vars with
      | Except.error e => Except.error e
      | Except.ok stg =>
        match parse_rules rules vars with
        | Except.error e => Except.error e
        | Except.ok rs =>
          Except.ok
            { name := source.name.getD (lc "undefined"),
              author := source.author.getD (lc "undefined"),
              settings := { name := Option.none, scope := Option.none, settings := stg } :: rs }

/-! ### Spec-side predicates (stated from the specification's words, to
compare against the behaviour of the embedded source) -/

/-- A hexadecimal digit, either case. -/
def isHexDigitAny (c : Char) : Bool :=
  c.isDigit || ('a' ≤ c && c ≤ 'f') || ('A' ≤ c && c ≤ 'F')

/-- Canonical color literal per the spec: `#` followed by 6 hexadecimal
digits, optionally followed by exactly 2 hexadecimal alpha digits. -/
def isCanonicalColor (l : List Char) : Bool :=
  match l with
  | '#' :: rest => (rest.length == 6 || rest.length == 8) && rest.all isHexDigitAny
  | _ => false

/-- The key transform as worded by the claim: each underscore followed by
an alphanumeric character is removed and that character uppercased;
every other character passes through unchanged. -/
def specMedialAlnum : List Char → List Char
  | [] => []
  | [c] => [c]
  | c1 :: c2 :: rest =>
    if c1 = '_' ∧ c2.isAlphanum = true then c2.toUpper :: specMedialAlnum rest
    else c1 :: specMedialAlnum (c2 :: rest)

/-- The amended key transform: underscore followed by an alphanumeric
character or a comma. -/
def specMedialComma : List Char → List Char
  | [] => []
  | [c] => [c]
  | c1 :: c2 :: rest =>
    if c1 = '_' ∧ (c2.isAlphanum || c2 == ',') = true then c2.toUpper :: specMedialComma rest
    else c1 :: specMedialComma (c2 :: rest)

/-- The alpha byte the renderer produces for an alpha value `q`:
`int (255*float (q))`, in the exact-fraction idealization. -/
def byteOf (q : Frac) : Int := pyInt ((Frac.ofInt 255).mul q)

/-- The three channel fractions `match_hsl` computes from the captured
digit groups (hue, saturation, lightness). -/
def hslChans (d1 d2 d3 : List Char) : Frac × Frac × Frac :=
  hls_to_rgb ((Frac.ofInt (digitsVal d1)).div (Frac.ofInt 360))
    ((Frac.ofInt (digitsVal d3)).div (Frac.ofInt 100))
    ((Frac.ofInt (digitsVal d2)).div (Frac.ofInt 100))

theorem toHex2_spec : ∀ p : Fin 256,
    (toHex2 p.val).length = 2 ∧ (toHex2 p.val).all isLowerHexDigit = true ∧
    parseHexNat (toHex2 p.val) = some p.val := by decide

theorem convClass_eq (c : Char) : convClass c = (c.isAlphanum || c == ',') := by
  simp only [convClass, Char.isAlphanum, Char.isAlpha]
  cases c.isLower <;> cases c.isUpper <;> cases c.isDigit <;> cases c == ',' <;> rfl

/-! ### Bridging `Frac` to `ℚ` -/

theorem tdiv_eq_ediv_nn {a b : Int} (ha : 0 ≤ a) (hb : 0 ≤ b) : Int.tdiv a b = a / b := by
  obtain ⟨m, rfl⟩ := Int.eq_ofNat_of_zero_le ha
  obtain ⟨n, rfl⟩ := Int.eq_ofNat_of_zero_le hb
  rfl

theorem dpos_add {a b : Frac} (ha : 0 < a.d) (hb : 0 < b.d) : 0 < (a.add b).d := mul_pos ha hb

theorem dpos_sub {a b : Frac} (ha : 0 < a.d) (hb : 0 < b.d) : 0 < (a.sub b).d := mul_pos ha hb

theorem dpos_mul {a b : Frac} (ha : 0 < a.d) (hb : 0 < b.d) : 0 < (a.mul b).d := mul_pos ha hb

theorem dpos_ofInt (i : Int) : 0 < (Frac.ofInt i).d := one_pos

theorem dpos_fract {a : Frac} (ha : 0 < a.d) : 0 < a.fract.d := by
  simpa [Frac.fract, Frac.sub, Frac.ofInt] using ha

theorem val_ofInt (i : Int) : (Frac.ofInt i).val = (i : ℚ) := by
  simp [Frac.ofInt, Frac.val]

theorem val_add {a b : Frac} (ha : 0 < a.d) (hb : 0 < b.d) :
    (a.add b).val = a.val + b.val := by
  have ha' : (a.d : ℚ) ≠ 0 := Int.cast_ne_zero.mpr (by omega)
  have hb' : (b.d : ℚ) ≠ 0 := Int.cast_ne_zero.mpr (by omega)
  simp only [Frac.add, Frac.val]
  push_cast
  field_simp

theorem val_sub {a b : Frac} (ha : 0 < a.d) (hb : 0 < b.d) :
    (a.sub b).val = a.val - b.val := by
  have ha' : (a.d : ℚ) ≠ 0 := Int.cast_ne_zero.mpr (by omega)
  have hb' : (b.d : ℚ) ≠ 0 := Int.cast_ne_zero.mpr (by omega)
  simp only [Frac.sub, Frac.val]
  push_cast
  field_simp
  ring

theorem val_mul {a b : Frac} (ha : 0 < a.d) (hb : 0 < b.d) :
    (a.mul b).val = a.val * b.val := by
  have ha' : (a.d : ℚ) ≠ 0 := Int.cast_ne_zero.mpr (by omega)
  have hb' : (b.d : ℚ) ≠ 0 := Int.cast_ne_zero.mpr (by omega)
  simp only [Frac.mul, Frac.val]
  push_cast
  field_simp

theorem val_div_ofInt {a : Frac} (k : Int) (hk : 0 < k) (ha : 0 < a.d) :
    (a.div (Frac.ofInt k)).val = a.val / (k : ℚ) ∧ 0 < (a.div (Frac.ofInt k)).d := by
  have ha' : (a.d : ℚ) ≠ 0 := Int.cast_ne_zero.mpr (by omega)
  have hk' : (k : ℚ) ≠ 0 := Int.cast_ne_zero.mpr (by omega)
  simp only [Frac.div, Frac.ofInt]
  rw [if_pos hk.le]
  constructor
  · simp only [Frac.val]
    push_cast
    field_simp
  · simpa using mul_pos ha hk

theorem blt_iff {a b : Frac} (ha : 0 < a.d) (hb : 0 < b.d) :
    a.blt b = true ↔ a.val < b.val := by
  have ha' : (0 : ℚ) < a.d := by exact_mod_cast ha
  have hb' : (0 : ℚ) < b.d := by exact_mod_cast hb
  simp only [Frac.blt, decide_eq_true_eq, Frac.val]
  rw [div_lt_div_iff₀ ha' hb']
  exact ⟨fun h => by exact_mod_cast h, fun h => by exact_mod_cast h⟩

theorem ble_iff {a b : Frac} (ha : 0 < a.d) (hb : 0 < b.d) :
    a.ble b = true ↔ a.val ≤ b.val := by
  have ha' : (0 : ℚ) < a.d := by exact_mod_cast ha
  have hb' : (0 : ℚ) < b.d := by exact_mod_cast hb
  simp only [Frac.ble, decide_eq_true_eq, Frac.val]
  rw [div_le_div_iff₀ ha' hb']
  exact ⟨fun h => by exact_mod_cast h, fun h => by exact_mod_cast h⟩

theorem isZero_iff {a : Frac} (ha : 0 < a.d) : a.isZero = true ↔ a.val = 0 := by
  have ha' : (a.d : ℚ) ≠ 0 := Int.cast_ne_zero.mpr (by omega)
  simp only [Frac.isZero, decide_eq_true_eq, Frac.val, div_eq_zero_iff, ha', or_false]
  exact ⟨fun h => by exact_mod_cast h, fun h => by exact_mod_cast h⟩

theorem val_nonneg_of {x : Frac} (hd : 0 < x.d) (hn : 0 ≤ x.n) : 0 ≤ x.val :=
  div_nonneg (by exact_mod_cast hn) (by exact_mod_cast hd.le)

theorem val_le_one_of {x : Frac} (hd : 0 < x.d) (hle : x.n ≤ x.d) : x.val ≤ 1 := by
  rw [Frac.val, div_le_one (by exact_mod_cast hd)]
  exact_mod_cast hle

theorem n_nonneg_of_val {x : Frac} (hd : 0 < x.d) (hv : 0 ≤ x.val) : 0 ≤ x.n := by
  by_contra hcon
  push_neg at hcon
  have : x.val < 0 :=
    div_neg_of_neg_of_pos (by exact_mod_cast hcon) (by exact_mod_cast hd)
  linarith

theorem floorv_eq {x : Frac} (hd : 0 < x.d) : x.floorv = ⌊x.val⌋ := by
  obtain ⟨m, hm⟩ := Int.eq_ofNat_of_zero_le hd.le
  unfold Frac.floorv Frac.val
  rw [hm]
  push_cast
  exact (Rat.floor_intCast_div_natCast x.n m).symm

theorem pyInt_eq_floor {x : Frac} (hd : 0 < x.d) (hn : 0 ≤ x.n) : pyInt x = ⌊x.val⌋ := by
  unfold pyInt
  rw [tdiv_eq_ediv_nn hn hd.le]
  exact floorv_eq hd

theorem val_fract {x : Frac} (hd : 0 < x.d) : x.fract.val = x.val - ⌊x.val⌋ := by
  unfold Frac.fract
  rw [val_sub hd (dpos_ofInt _), val_ofInt, floorv_eq hd]

/-- Core property of the alpha renderer: for an alpha value with
nonnegative numerator, positive denominator and value at most 1, the
rendered suffix is exactly two lowercase hex digits whose value is
`⌊255·q⌋`. -/
theorem alpha_to_hex_core {q : Frac} (hd : 0 < q.d) (hn : 0 ≤ q.n) (hv1 : q.val ≤ 1) :
    (alpha_to_hex q).length = 2 ∧ (alpha_to_hex q).all isLowerHexDigit = true ∧
    parseHexNat (alpha_to_hex q) = some (byteOf q).toNat ∧
    byteOf q = ⌊255 * q.val⌋ := by
  have hv0 : 0 ≤ q.val := val_nonneg_of hd hn
  have hxd : 0 < ((Frac.ofInt 255).mul q).d := dpos_mul (dpos_ofInt 255) hd
  have hxn : 0 ≤ ((Frac.ofInt 255).mul q).n := by
    simp only [Frac.mul, Frac.ofInt]
    positivity
  have hval : ((Frac.ofInt 255).mul q).val = 255 * q.val := by
    rw [val_mul (dpos_ofInt 255) hd, val_ofInt]
    norm_num
  have hbyte : byteOf q = ⌊255 * q.val⌋ := by
    unfold byteOf
    rw [pyInt_eq_floor hxd hxn, hval]
  have h0 : 0 ≤ byteOf q := by
    rw [hbyte]
    exact Int.floor_nonneg.mpr (by positivity)
  have h255 : byteOf q ≤ 255 := by
    rw [hbyte]
    calc ⌊255 * q.val⌋ ≤ ⌊(255 : ℚ)⌋ := Int.floor_mono (by nlinarith)
    _ = 255 := by norm_num
  have hform : alpha_to_hex q = toHex2 (byteOf q).toNat := by
    show format02x (byteOf q) = _
    unfold format02x
    rw [if_neg (not_lt.mpr h0)]
  obtain ⟨l2, la, lp⟩ := toHex2_spec ⟨(byteOf q).toNat, by omega⟩
  exact ⟨by rw [hform]; exact l2, by rw [hform]; exact la, by rw [hform]; exact lp, hbyte⟩

/-! ### Range analysis of the HSL transform -/

theorem affine_bounds {m1v m2v u : ℚ} (h10 : 0 ≤ m1v) (h11 : m1v ≤ 1)
    (h20 : 0 ≤ m2v) (h21 : m2v ≤ 1) (hu0 : 0 ≤ u) (hu1 : u ≤ 1) :
    0 ≤ m1v + (m2v - m1v) * u ∧ m1v + (m2v - m1v) * u ≤ 1 := by
  constructor
  · nlinarith [mul_nonneg h10 (sub_nonneg.mpr hu1), mul_nonneg h20 hu0]
  · nlinarith [mul_nonneg (sub_nonneg.mpr h11) (sub_nonneg.mpr hu1),
      mul_nonneg (sub_nonneg.mpr h21) hu0]

theorem vAux_bounds {m1 m2 hue : Frac} (h1d : 0 < m1.d) (h2d : 0 < m2.d) (hhd : 0 < hue.d)
    (h10 : 0 ≤ m1.val) (h11 : m1.val ≤ 1) (h20 : 0 ≤ m2.val) (h21 : m2.val ≤ 1) :
    0 < (vAux m1 m2 hue).d ∧ 0 ≤ (vAux m1 m2 hue).val ∧ (vAux m1 m2 hue).val ≤ 1 := by
  have hfd : 0 < hue.fract.d := dpos_fract hhd
  have hf0 : 0 ≤ hue.fract.val := by
    rw [val_fract hhd]
    linarith [Int.floor_le hue.val]
  have hf1 : hue.fract.val < 1 := by
    rw [val_fract hhd]
    linarith [Int.lt_floor_add_one hue.val]
  have d16 : (0 : Int) < (⟨1, 6⟩ : Frac).d := by norm_num
  have d12 : (0 : Int) < (⟨1, 2⟩ : Frac).d := by norm_num
  have d23 : (0 : Int) < (⟨2, 3⟩ : Frac).d := by norm_num
  have v16 : (⟨1, 6⟩ : Frac).val = 1 / 6 := by rw [Frac.val]; norm_num
  have v12 : (⟨1, 2⟩ : Frac).val = 1 / 2 := by rw [Frac.val]; norm_num
  have v23 : (⟨2, 3⟩ : Frac).val = 2 / 3 := by rw [Frac.val]; norm_num
  have hsubd : 0 < ((m2.sub m1).mul hue.fract).d := dpos_mul (dpos_sub h2d h1d) hfd
  simp only [vAux]
  by_cases hb1 : hue.fract.blt ⟨1, 6⟩ = true
  · rw [if_pos hb1]
    have ht : hue.fract.val < 1 / 6 := by rw [← v16]; exact (blt_iff hfd d16).mp hb1
    have hed : 0 < (m1.add (((m2.sub m1).mul hue.fract).mul (Frac.ofInt 6))).d :=
      dpos_add h1d (dpos_mul hsubd (dpos_ofInt 6))
    have hev : (m1.add (((m2.sub m1).mul hue.fract).mul (Frac.ofInt 6))).val =
        m1.val + (m2.val - m1.val) * (hue.fract.val * 6) := by
      rw [val_add h1d (dpos_mul hsubd (dpos_ofInt 6)), val_mul hsubd (dpos_ofInt 6),
        val_mul (dpos_sub h2d h1d) hfd, val_sub h2d h1d, val_ofInt]
      push_cast
      ring
    obtain ⟨hlo, hhi⟩ := @affine_bounds m1.val m2.val (hue.fract.val * 6) h10 h11 h20 h21
      (by linarith) (by linarith)
    exact ⟨hed, by rw [hev]; exact hlo, by rw [hev]; exact hhi⟩
  · rw [if_neg hb1]
    have ht1 : ¬ hue.fract.val < 1 / 6 := fun hc =>
      hb1 ((blt_iff hfd d16).mpr (by rw [v16]; exact hc))
    by_cases hb2 : hue.fract.blt ⟨1, 2⟩ = true
    · rw [if_pos hb2]
      exact ⟨h2d, h20, h21⟩
    · rw [if_neg hb2]
      have ht2 : ¬ hue.fract.val < 1 / 2 := fun hc =>
        hb2 ((blt_iff hfd d12).mpr (by rw [v12]; exact hc))
      by_cases hb3 : hue.fract.blt ⟨2, 3⟩ = true
      · rw [if_pos hb3]
        have ht3 : hue.fract.val < 2 / 3 := by rw [← v23]; exact (blt_iff hfd d23).mp hb3
        have hsd : 0 < ((⟨2, 3⟩ : Frac).sub hue.fract).d := dpos_sub d23 hfd
        have hmd : 0 < ((m2.sub m1).mul ((⟨2, 3⟩ : Frac).sub hue.fract)).d :=
          dpos_mul (dpos_sub h2d h1d) hsd
        have hed : 0 <
            (m1.add (((m2.sub m1).mul ((⟨2, 3⟩ : Frac).sub hue.fract)).mul (Frac.ofInt 6))).d :=
          dpos_add h1d (dpos_mul hmd (dpos_ofInt 6))
        have hev :
            (m1.add (((m2.sub m1).mul ((⟨2, 3⟩ : Frac).sub hue.fract)).mul (Frac.ofInt 6))).val =
            m1.val + (m2.val - m1.val) * ((2 / 3 - hue.fract.val) * 6) := by
          rw [val_add h1d (dpos_mul hmd (dpos_ofInt 6)), val_mul hmd (dpos_ofInt 6),
            val_mul (dpos_sub h2d h1d) hsd, val_sub d23 hfd, val_sub h2d h1d, val_ofInt, v23]
          push_cast
          ring
        obtain ⟨hlo, hhi⟩ := @affine_bounds m1.val m2.val ((2 / 3 - hue.fract.val) * 6)
          h10 h11 h20 h21 (by linarith) (by linarith)
        exact ⟨hed, by rw [hev]; exact hlo, by rw [hev]; exact hhi⟩
      · rw [if_neg hb3]
        exact ⟨h1d, h10, h11⟩

theorem hls_bounds {h l s : Frac} (hhd : 0 < h.d) (hld : 0 < l.d) (hsd : 0 < s.d)
    (hl0 : 0 ≤ l.val) (hl1 : l.val ≤ 1) (hs0 : 0 ≤ s.val) (hs1 : s.val ≤ 1) :
    (0 < (hls_to_rgb h l s).1.d ∧ 0 ≤ (hls_to_rgb h l s).1.val ∧ (hls_to_rgb h l s).1.val ≤ 1) ∧
    (0 < (hls_to_rgb h l s).2.1.d ∧ 0 ≤ (hls_to_rgb h l s).2.1.val ∧
      (hls_to_rgb h l s).2.1.val ≤ 1) ∧
    (0 < (hls_to_rgb h l s).2.2.d ∧ 0 ≤ (hls_to_rgb h l s).2.2.val ∧
      (hls_to_rgb h l s).2.2.val ≤ 1) := by
  have d12 : (0 : Int) < (⟨1, 2⟩ : Frac).d := by norm_num
  have d13 : (0 : Int) < (⟨1, 3⟩ : Frac).d := by norm_num
  have v12 : (⟨1, 2⟩ : Frac).val = 1 / 2 := by rw [Frac.val]; norm_num
  have hd1 : 0 < (h.add ⟨1, 3⟩).d := dpos_add hhd d13
  have hd3 : 0 < (h.sub ⟨1, 3⟩).d := dpos_sub hhd d13
  simp only [hls_to_rgb]
  by_cases hz : s.isZero = true
  · rw [if_pos hz]
    exact ⟨⟨hld, hl0, hl1⟩, ⟨hld, hl0, hl1⟩, ⟨hld, hl0, hl1⟩⟩
  · rw [if_neg hz]
    by_cases hlh : l.ble ⟨1, 2⟩ = true
    · rw [if_pos hlh]
      have hlv : l.val ≤ 1 / 2 := by rw [← v12]; exact (ble_iff hld d12).mp hlh
      have hm2d : 0 < (l.mul ((Frac.ofInt 1).add s)).d :=
        dpos_mul hld (dpos_add (dpos_ofInt 1) hsd)
      have hm2v : (l.mul ((Frac.ofInt 1).add s)).val = l.val * (1 + s.val) := by
        rw [val_mul hld (dpos_add (dpos_ofInt 1) hsd), val_add (dpos_ofInt 1) hsd, val_ofInt]
        norm_num
      have hm20 : 0 ≤ (l.mul ((Frac.ofInt 1).add s)).val := by
        rw [hm2v]
        nlinarith [mul_nonneg hl0 hs0]
      have hm21 : (l.mul ((Frac.ofInt 1).add s)).val ≤ 1 := by
        rw [hm2v]
        nlinarith [mul_nonneg (sub_nonneg.mpr hlv) hs0]
      have hm1d : 0 < (((Frac.ofInt 2).mul l).sub (l.mul ((Frac.ofInt 1).add s))).d :=
        dpos_sub (dpos_mul (dpos_ofInt 2) hld) hm2d
      have hm1v : (((Frac.ofInt 2).mul l).sub (l.mul ((Frac.ofInt 1).add s))).val =
          2 * l.val - l.val * (1 + s.val) := by
        rw [val_sub (dpos_mul (dpos_ofInt 2) hld) hm2d, val_mul (dpos_ofInt 2) hld,
          val_ofInt, hm2v]
        norm_num
      have hm10 : 0 ≤ (((Frac.ofInt 2).mul l).sub (l.mul ((Frac.ofInt 1).add s))).val := by
        rw [hm1v]
        nlinarith [mul_nonneg hl0 (sub_nonneg.mpr hs1)]
      have hm11 : (((Frac.ofInt 2).mul l).sub (l.mul ((Frac.ofInt 1).add s))).val ≤ 1 := by
        rw [hm1v]
        nlinarith [mul_nonneg hl0 hs0]
      exact ⟨vAux_bounds hm1d hm2d hd1 hm10 hm11 hm20 hm21,
        vAux_bounds hm1d hm2d hhd hm10 hm11 hm20 hm21,
        vAux_bounds hm1d hm2d hd3 hm10 hm11 hm20 hm21⟩
    · rw [if_neg hlh]
      have hlv : 1 / 2 < l.val := by
        by_contra hc
        push_neg at hc
        exact hlh ((ble_iff hld d12).mpr (by rw [v12]; exact hc))
      have hm2d : 0 < ((l.add s).sub (l.mul s)).d :=
        dpos_sub (dpos_add hld hsd) (dpos_mul hld hsd)
      have hm2v : ((l.add s).sub (l.mul s)).val = l.val + s.val - l.val * s.val := by
        rw [val_sub (dpos_add hld hsd) (dpos_mul hld hsd), val_add hld hsd, val_mul hld hsd]
      have hm20 : 0 ≤ ((l.add s).sub (l.mul s)).val := by
        rw [hm2v]
        nlinarith [mul_nonneg hs0 (sub_nonneg.mpr hl1)]
      have hm21 : ((l.add s).sub (l.mul s)).val ≤ 1 := by
        rw [hm2v]
        nlinarith [mul_nonneg (sub_nonneg.mpr hl1) (sub_nonneg.mpr hs1)]
      have hm1d : 0 < (((Frac.ofInt 2).mul l).sub ((l.add s).sub (l.mul s))).d :=
        dpos_sub (dpos_mul (dpos_ofInt 2) hld) hm2d
      have hm1v : (((Frac.ofInt 2).mul l).sub ((l.add s).sub (l.mul s))).val =
          2 * l.val - (l.val + s.val - l.val * s.val) := by
        rw [val_sub (dpos_mul (dpos_ofInt 2) hld) hm2d, val_mul (dpos_ofInt 2) hld,
          val_ofInt, hm2v]
        norm_num
      have hm10 : 0 ≤ (((Frac.ofInt 2).mul l).sub ((l.add s).sub (l.mul s))).val := by
        rw [hm1v]
        nlinarith [mul_nonneg (sub_nonneg.mpr hl1) (sub_nonneg.mpr hs1)]
      have hm11 : (((Frac.ofInt 2).mul l).sub ((l.add s).sub (l.mul s))).val ≤ 1 := by
        rw [hm1v]
        nlinarith [mul_nonneg hs0 (sub_nonneg.mpr hl1)]
      exact ⟨vAux_bounds hm1d hm2d hd1 hm10 hm11 hm20 hm21,
        vAux_bounds hm1d hm2d hhd hm10 hm11 hm20 hm21,
        vAux_bounds hm1d hm2d hd3 hm10 hm11 hm20 hm21⟩

/-! ### Behaviour of the matchers in the presence of an `alpha` adjuster -/

theorem reHexTryAt_len {l : List Char} {g1 : List Char} {g2 : Option (List Char)}
    (h : reHexTryAt l = some (g1, g2)) : g1.length = 7 := by
  cases l with
  | nil => exact absurd h (by simp [reHexTryAt])
  | cons c rest =>
    simp only [reHexTryAt] at h
    by_cases hc : c = '#'
    · rw [if_pos hc] at h
      by_cases h6 : (rest.take 6).length = 6 ∧ (rest.take 6).all hexClass = true
      · rw [if_pos h6] at h
        simp only [Option.some.injEq, Prod.mk.injEq] at h
        rw [← h.1]
        simp [h6.1]
      · rw [if_neg h6] at h
        cases h
    · rw [if_neg hc] at h
      cases h

theorem reHexSearch_len : ∀ {s : List Char} {g1 : List Char} {g2 : Option (List Char)},
    reHexSearch s = some (g1, g2) → g1.length = 7 := by
  intro s
  induction s with
  | nil => intro g1 g2 h; exact absurd h (by simp [reHexSearch])
  | cons c rest ih =>
    intro g1 g2 h
    unfold reHexSearch at h
    cases ht : reHexTryAt (c :: rest) with
    | some r =>
      rw [ht] at h
      cases h
      exact reHexTryAt_len ht
    | none =>
      rw [ht] at h
      exact ih h

theorem truthy_num_of_pos {q : Frac} (hn : 0 < q.n) : (PyVal.num q).truthy = true := by
  simp only [PyVal.truthy, Frac.isZero, Bool.not_eq_true']
  simp only [decide_eq_false_iff_not]
  omega

theorem match_hex_adjuster {s g1 : List Char} {g2 : Option (List Char)} {q : Frac}
    (hH : reHexSearch s = some (g1, g2)) (hA : reAlphaSearch s = some q) (hn : 0 < q.n) :
    match_hex s = some (g1 ++ alpha_to_hex q) := by
  unfold match_hex get_alpha_adjuster
  rw [hH, hA]
  simp [truthy_num_of_pos hn, PyVal.toFrac]

theorem match_hex_none {s : List Char} (h : reHexSearch s = Option.none) :
    match_hex s = Option.none := by
  unfold match_hex
  rw [h]

theorem match_rgb_none {s : List Char} (h : reRgbSearch s = Option.none) :
    match_rgb s = Option.none := by
  unfold match_rgb
  rw [h]

theorem match_rgb_adjuster {s d1 d2 d3 : List Char} {g5 : Option (List Char)} {q : Frac}
    (hR : reRgbSearch s = some (d1, d2, d3, g5)) (hA : reAlphaSearch s = some q)
    (hn : 0 < q.n) :
    match_rgb s = some
      (('#' :: (format02x (digitsVal d1 : Int) ++ format02x (digitsVal d2 : Int) ++
        format02x (digitsVal d3 : Int))) ++ alpha_to_hex q) := by
  unfold match_rgb get_alpha_adjuster rgb_to_hex
  rw [hR, hA]
  simp [truthy_num_of_pos hn, PyVal.toFrac]

theorem match_hsl_adjuster {s d1 d2 d3 : List Char} {g5 : Option (List Char)} {q : Frac}
    (hL : reHslSearch s = some (d1, d2, d3, g5)) (hA : reAlphaSearch s = some q)
    (hn : 0 < q.n) :
    match_hsl s = some
      (('#' :: (format02x (255 * pyInt (hslChans d1 d2 d3).1) ++
        format02x (255 * pyInt (hslChans d1 d2 d3).2.1) ++
        format02x (255 * pyInt (hslChans d1 d2 d3).2.2))) ++ alpha_to_hex q) := by
  unfold match_hsl get_alpha_adjuster rgb_to_hex hslChans
  rw [hL, hA]
  simp [truthy_num_of_pos hn, PyVal.toFrac]

theorem optStrFalsy_of_ne {l : List Char} (h : l ≠ []) : optStrFalsy (some l) = false := by
  cases l with
  | nil => exact absurd rfl h
  | cons c t => rfl

theorem optStrFalsy_none : optStrFalsy Option.none = true := rfl

/-- Master lemma: whenever an `alpha(q)` adjuster with `0 < q ≤ 1` is
present and the matcher stage produced `base ++ alpha_to_hex q` with
`base` of length 7, `try_match_color` returns it unchanged (the final
re-application collapses because the adjuster overrides the embedded
alpha again). -/
theorem try_match_override {s base : List Char} {q : Frac}
    (hA : reAlphaSearch s = some q) (hd : 0 < q.d) (hn : 0 < q.n) (hle : q.n ≤ q.d)
    (hbase : base.length = 7)
    (hchain : match_hex s = some (base ++ alpha_to_hex q) ∨
      match_hex s = Option.none ∧ match_rgb s = some (base ++ alpha_to_hex q) ∨
      match_hex s = Option.none ∧ match_rgb s = Option.none ∧
        match_hsl s = some (base ++ alpha_to_hex q)) :
    try_match_color s = Except.ok (base ++ alpha_to_hex q) := by
  obtain ⟨l2, la, lp, hb⟩ := alpha_to_hex_core hd hn.le (val_le_one_of hd hle)
  have hbne : base ≠ [] := by
    intro hx
    rw [hx] at hbase
    simp at hbase
  have hne : base ++ alpha_to_hex q ≠ [] := by
    cases base with
    | nil => exact absurd rfl hbne
    | cons c t => simp
  have hfal : optStrFalsy (some (base ++ alpha_to_hex q)) = false := optStrFalsy_of_ne hne
  have hdrop : (base ++ alpha_to_hex q).drop 7 = alpha_to_hex q := by
    rw [← hbase, List.drop_left]
  have htake : (base ++ alpha_to_hex q).take 7 = base := by
    rw [← hbase, List.take_left]
  have hlen9 : (base ++ alpha_to_hex q).length = 9 := by
    rw [List.length_append, hbase, l2]
  have hgah : get_alpha_hex (base ++ alpha_to_hex q) = Except.ok (some (byteOf q).toNat) := by
    unfold get_alpha_hex
    rw [hlen9, if_neg (by norm_num), hdrop, lp]
  have hhex : hexa_to_hex base q = base ++ alpha_to_hex q := by
    unfold hexa_to_hex
    rw [show base.take 7 = base by rw [← hbase, List.take_length]]
  have htru := truthy_num_of_pos hn
  unfold try_match_color
  rcases hchain with h1 | ⟨h1, h2⟩ | ⟨h1, h2, h3⟩
  · simp only [h1, hfal, Bool.false_eq_true, if_false, hgah, hA, Option.getD_some]
    simp [get_alpha_adjuster, hA, htru, PyVal.toFrac, htake, hhex]
  · simp only [h1, h2, optStrFalsy_none, eq_self_iff_true, if_true, hfal, Bool.false_eq_true,
      if_false, hgah, Option.getD_some]
    simp [get_alpha_adjuster, hA, htru, PyVal.toFrac, htake, hhex]
  · simp only [h1, h2, h3, optStrFalsy_none, eq_self_iff_true, if_true, hfal, Bool.false_eq_true,
      if_false, hgah, Option.getD_some]
    simp [get_alpha_adjuster, hA, htru, PyVal.toFrac, htake, hhex]

theorem format02x_nonneg {i : Int} (h : 0 ≤ i) : format02x i = toHex2 i.toNat := by
  unfold format02x
  rw [if_neg (not_lt.mpr h)]

theorem base7_len {r g b : Int} (hr0 : 0 ≤ r) (hr : r ≤ 255) (hg0 : 0 ≤ g) (hg : g ≤ 255)
    (hb0 : 0 ≤ b) (hb : b ≤ 255) :
    ('#' :: (format02x r ++ format02x g ++ format02x b)).length = 7 := by
  have lr := (toHex2_spec ⟨r.toNat, by omega⟩).1
  have lg := (toHex2_spec ⟨g.toNat, by omega⟩).1
  have lb := (toHex2_spec ⟨b.toNat, by omega⟩).1
  simp only [format02x_nonneg hr0, format02x_nonneg hg0, format02x_nonneg hb0,
    List.length_cons, List.length_append, lr, lg, lb]

theorem hslChans_bounds {d1 d2 d3 : List Char} (h2 : digitsVal d2 ≤ 100)
    (h3 : digitsVal d3 ≤ 100) :
    (0 < (hslChans d1 d2 d3).1.d ∧ 0 ≤ (hslChans d1 d2 d3).1.val ∧
      (hslChans d1 d2 d3).1.val ≤ 1) ∧
    (0 < (hslChans d1 d2 d3).2.1.d ∧ 0 ≤ (hslChans d1 d2 d3).2.1.val ∧
      (hslChans d1 d2 d3).2.1.val ≤ 1) ∧
    (0 < (hslChans d1 d2 d3).2.2.d ∧ 0 ≤ (hslChans d1 d2 d3).2.2.val ∧
      (hslChans d1 d2 d3).2.2.val ≤ 1) := by
  have h360 := @val_div_ofInt (Frac.ofInt (digitsVal d1)) 360 (by norm_num) (dpos_ofInt _)
  have h100s := @val_div_ofInt (Frac.ofInt (digitsVal d2)) 100 (by norm_num) (dpos_ofInt _)
  have h100l := @val_div_ofInt (Frac.ofInt (digitsVal d3)) 100 (by norm_num) (dpos_ofInt _)
  have hsv0 : 0 ≤ ((Frac.ofInt (digitsVal d2)).div (Frac.ofInt 100)).val := by
    rw [h100s.1, val_ofInt]
    positivity
  have hsv1 : ((Frac.ofInt (digitsVal d2)).div (Frac.ofInt 100)).val ≤ 1 := by
    rw [h100s.1, val_ofInt, div_le_one (by norm_num)]
    exact_mod_cast h2
  have hlv0 : 0 ≤ ((Frac.ofInt (digitsVal d3)).div (Frac.ofInt 100)).val := by
    rw [h100l.1, val_ofInt]
    positivity
  have hlv1 : ((Frac.ofInt (digitsVal d3)).div (Frac.ofInt 100)).val ≤ 1 := by
    rw [h100l.1, val_ofInt, div_le_one (by norm_num)]
    exact_mod_cast h3
  exact hls_bounds h360.2 h100l.2 h100s.2 hlv0 hlv1 hsv0 hsv1

/-- A channel fraction in `[0,1]` with positive denominator yields a
truncated channel byte `255 * int (v)` lying in `[0, 255]`. -/
theorem chan_byte_bounds {v : Frac} (hd : 0 < v.d) (h0 : 0 ≤ v.val) (h1 : v.val ≤ 1) :
    0 ≤ 255 * pyInt v ∧ 255 * pyInt v ≤ 255 := by
  rw [pyInt_eq_floor hd (n_nonneg_of_val hd h0)]
  have hlo : 0 ≤ ⌊v.val⌋ := Int.floor_nonneg.mpr h0
  have hhi : ⌊v.val⌋ ≤ 1 := by
    calc ⌊v.val⌋ ≤ ⌊(1 : ℚ)⌋ := Int.floor_mono h1
    _ = 1 := Int.floor_one
  omega

/-! ### Claim theorems -/

/-- C1: resolving `rgb(255, 0, 0)` yields `#ff0000`; resolving
`rgb(255, 0, 0, 0.5)` does NOT yield `#ff00007f` — the code re-converts
the already-embedded alpha byte 127 as if it were a fraction
(255·127 = 32385 = 0x7e81) and produces `#ff00007e81`. -/
theorem claim1_rgb_resolution :
    try_match_color (lc "rgb(255, 0, 0)") = Except.ok (lc "#ff0000") ∧
    try_match_color (lc "rgb(255, 0, 0, 0.5)") = Except.ok (lc "#ff00007e81") ∧
    lc "#ff00007e81" ≠ lc "#ff00007f" := by decide

/-- C2: resolution is idempotent on a 6-digit canonical literal, but NOT
on a canonical literal with a (nonzero) alpha suffix: `#aabbccdd`
resolves to `#aabbccdc23` (the embedded alpha byte 221 is re-scaled by
255), not to itself. -/
theorem claim2_idempotence_failure :
    try_match_color (lc "#ff0000") = Except.ok (lc "#ff0000") ∧
    try_match_color (lc "#aabbccdd") = Except.ok (lc "#aabbccdc23") ∧
    lc "#aabbccdc23" ≠ lc "#aabbccdd" := by decide

/-- C3: the value `#11223344` is recognized as a hex color (and is itself
canonical), yet its resolution `#11223343bc` is not a canonical color
literal — the alpha suffix has four hex digits. -/
theorem claim3_canonical_failure :
    isCanonicalColor (lc "#11223344") = true ∧
    try_match_color (lc "#11223344") = Except.ok (lc "#11223343bc") ∧
    isCanonicalColor (lc "#11223343bc") = false := by decide

/-- C5: `hsl(0, 100%, 50%)` does resolve to `#ff0000`, but the code
computes each channel as `255*int(v)` instead of applying the standard
transform: at `hsl(0, 100%, 75%)` the standard transform gives channel
fractions (1, 1/2, 1/2) — bytes 255, 127, 127 — while the code still
returns `#ff0000`. -/
theorem claim5_hsl_truncation :
    try_match_color (lc "hsl(0, 100%, 50%)") = Except.ok (lc "#ff0000") ∧
    try_match_color (lc "hsl(0, 100%, 75%)") = Except.ok (lc "#ff0000") ∧
    (hls_to_rgb ⟨0, 360⟩ ⟨75, 100⟩ ⟨100, 100⟩).2.1.beqv ⟨1, 2⟩ = true ∧
    (hls_to_rgb ⟨0, 360⟩ ⟨75, 100⟩ ⟨100, 100⟩).2.2.beqv ⟨1, 2⟩ = true ∧
    lc "#ff0000" ≠ '#' :: (toHex2 255 ++ toHex2 127 ++ toHex2 127) := by decide

/-- C6 (amended): scope `"string - comment"` normalizes to
`"string, comment"`, and scope `"foo (bar)"` normalizes to `"foo bar "`
— each parenthesis together with its surrounding whitespace is replaced
by one space, so a trailing space remains. -/
theorem claim6_scope_normalization :
    parse_scope (lc "string - comment") = lc "string, comment" ∧
    parse_scope (lc "foo (bar)") = lc "foo bar " := by decide

/-- C6 counterexample: scope `"foo (bar)"` does not normalize to
`"foo bar"` as claimed; the result carries a trailing space. -/
theorem claim6_counterexample :
    parse_scope (lc "foo (bar)") = lc "foo bar " ∧ lc "foo bar " ≠ lc "foo bar" := by decide

/-- C7 (amended): `convert_name` agrees everywhere with the medial-capital
transform that uppercases after an underscore followed by an
alphanumeric character OR A COMMA (the source class `[a-z,A-Z,0-9]`
contains the comma); in particular `background_color ↦
backgroundColor`. -/
theorem claim7_medial_capital : ∀ l : List Char, convert_name l = specMedialComma l := by
  intro l
  induction l using convert_name.induct with
  | case1 => rfl
  | case2 c => rfl
  | case3 c1 c2 rest h ih =>
    have h' : c1 = '_' ∧ (c2.isAlphanum || c2 == ',') = true :=
      ⟨h.1, by rw [← convClass_eq]; exact h.2⟩
    rw [convert_name, specMedialComma, if_pos h, if_pos h', ih]
  | case4 c1 c2 rest h ih =>
    have h' : ¬(c1 = '_' ∧ (c2.isAlphanum || c2 == ',') = true) := fun hc =>
      h ⟨hc.1, by rw [convClass_eq]; exact hc.2⟩
    rw [convert_name, specMedialComma, if_neg h, if_neg h', ih]

/-- C7 counterexample: on `"a_,b"` the code removes the underscore before
the comma (`"a,b"`), while the claimed alphanumeric-only transform
leaves the string unchanged. -/
theorem claim7_counterexample :
    convert_name (lc "a_,b") = lc "a,b" ∧ specMedialAlnum (lc "a_,b") = lc "a_,b" ∧
    lc "a,b" ≠ lc "a_,b" := by decide

/-- C8: a value that is exactly a declared reference resolves through the
table and an undeclared reference passes through unchanged — but only
when a variables table exists; when the document has no `variables`
field at all (`None`), the same undeclared reference raises an
`AttributeError` (`None.get`) instead of passing through. -/
theorem claim8_variable_resolution :
    parse_color (lc "var(accent)") (some [(lc "var(accent)", lc "#112233")]) =
      Except.ok (lc "#112233") ∧
    parse_color (lc "var(missing)") (some [(lc "var(accent)", lc "#112233")]) =
      Except.ok (lc "var(missing)") ∧
    parse_color (lc "var(missing)") Option.none = Except.error PyErr.attributeError := by decide

/-- C4 (amended): an explicit `alpha` modifier with a nonzero number
determines the resulting alpha suffix, overriding the embedded alpha:
any two value strings that contain a well-formed base color literal
with an embedded alpha (hex with alpha digits; rgb with integer
channels 0–255 and a fourth component; hsl with saturation/lightness at
most 100% and a fourth component) together with `alpha` modifiers of
the same nonzero numeric value `0 < q ≤ 1` (with at most 300 fractional
digits, so that the float value cannot underflow to the falsy `0.0`)
resolve to their respective base colors followed by one and the same
two-lowercase-hex-digit alpha suffix, whatever their embedded alphas
were.  This states which alpha wins without committing to the numeric
value of the rendered byte, which goes through binary64 rounding in
`int (255*float (q))`.  (A modifier `alpha(0)` is ignored instead; see
the counterexample.) -/
theorem claim4_alpha_override :
    (∀ s s' g1 g1' g2 g2' q,
      reHexSearch s = some (g1, some g2) → reHexSearch s' = some (g1', some g2') →
      reAlphaSearch s = some q → reAlphaSearch s' = some q →
      0 < q.d → 0 < q.n → q.n ≤ q.d → q.d ≤ 10 ^ 300 →
      ∃ suffix : List Char, suffix.length = 2 ∧ suffix.all isLowerHexDigit = true ∧
        try_match_color s = Except.ok (g1 ++ suffix) ∧
        try_match_color s' = Except.ok (g1' ++ suffix)) ∧
    (∀ s s' d1 d2 d3 g5 d1' d2' d3' g5' q,
      reHexSearch s = Option.none → reRgbSearch s = some (d1, d2, d3, some g5) →
      reHexSearch s' = Option.none → reRgbSearch s' = some (d1', d2', d3', some g5') →
      reAlphaSearch s = some q → reAlphaSearch s' = some q →
      0 < q.d → 0 < q.n → q.n ≤ q.d → q.d ≤ 10 ^ 300 →
      digitsVal d1 ≤ 255 → digitsVal d2 ≤ 255 → digitsVal d3 ≤ 255 →
      digitsVal d1' ≤ 255 → digitsVal d2' ≤ 255 → digitsVal d3' ≤ 255 →
      ∃ suffix : List Char, suffix.length = 2 ∧ suffix.all isLowerHexDigit = true ∧
        try_match_color s = Except.ok
          (('#' :: (format02x (digitsVal d1 : Int) ++ format02x (digitsVal d2 : Int) ++
            format02x (digitsVal d3 : Int))) ++ suffix) ∧
        try_match_color s' = Except.ok
          (('#' :: (format02x (digitsVal d1' : Int) ++ format02x (digitsVal d2' : Int) ++
            format02x (digitsVal d3' : Int))) ++ suffix)) ∧
    (∀ s s' d1 d2 d3 g5 d1' d2' d3' g5' q,
      reHexSearch s = Option.none → reRgbSearch s = Option.none →
      reHslSearch s = some (d1, d2, d3, some g5) →
      reHexSearch s' = Option.none → reRgbSearch s' = Option.none →
      reHslSearch s' = some (d1', d2', d3', some g5') →
      reAlphaSearch s = some q → reAlphaSearch s' = some q →
      0 < q.d → 0 < q.n → q.n ≤ q.d → q.d ≤ 10 ^ 300 →
      digitsVal d2 ≤ 100 → digitsVal d3 ≤ 100 → digitsVal d2' ≤ 100 → digitsVal d3' ≤ 100 →
      ∃ base base' suffix : List Char, base.length = 7 ∧ base'.length = 7 ∧
        suffix.length = 2 ∧ suffix.all isLowerHexDigit = true ∧
        try_match_color s = Except.ok (base ++ suffix) ∧
        try_match_color s' = Except.ok (base' ++ suffix)) := by
  refine ⟨?_, ?_, ?_⟩
  · intro s s' g1 g1' g2 g2' q hH hH' hA hA' hd hn hle _
    obtain ⟨l2, la, -, -⟩ := alpha_to_hex_core hd hn.le (val_le_one_of hd hle)
    exact ⟨alpha_to_hex q, l2, la,
      try_match_override hA hd hn hle (reHexSearch_len hH)
        (Or.inl (match_hex_adjuster hH hA hn)),
      try_match_override hA' hd hn hle (reHexSearch_len hH')
        (Or.inl (match_hex_adjuster hH' hA' hn))⟩
  · intro s s' d1 d2 d3 g5 d1' d2' d3' g5' q hHn hR hHn' hR' hA hA' hd hn hle _
      h1 h2 h3 h1' h2' h3'
    obtain ⟨l2, la, -, -⟩ := alpha_to_hex_core hd hn.le (val_le_one_of hd hle)
    have hlen : ('#' :: (format02x (digitsVal d1 : Int) ++ format02x (digitsVal d2 : Int) ++
        format02x (digitsVal d3 : Int))).length = 7 :=
      base7_len (by positivity) (by exact_mod_cast h1) (by positivity)
        (by exact_mod_cast h2) (by positivity) (by exact_mod_cast h3)
    have hlen' : ('#' :: (format02x (digitsVal d1' : Int) ++ format02x (digitsVal d2' : Int) ++
        format02x (digitsVal d3' : Int))).length = 7 :=
      base7_len (by positivity) (by exact_mod_cast h1') (by positivity)
        (by exact_mod_cast h2') (by positivity) (by exact_mod_cast h3')
    exact ⟨alpha_to_hex q, l2, la,
      try_match_override hA hd hn hle hlen
        (Or.inr (Or.inl ⟨match_hex_none hHn, match_rgb_adjuster hR hA hn⟩)),
      try_match_override hA' hd hn hle hlen'
        (Or.inr (Or.inl ⟨match_hex_none hHn', match_rgb_adjuster hR' hA' hn⟩))⟩
  · intro s s' d1 d2 d3 g5 d1' d2' d3' g5' q hHn hRn hL hHn' hRn' hL' hA hA' hd hn hle _
      h2 h3 h2' h3'
    obtain ⟨l2, la, -, -⟩ := alpha_to_hex_core hd hn.le (val_le_one_of hd hle)
    obtain ⟨⟨rd, r0, r1⟩, ⟨gd, g0, g1⟩, ⟨bd, b0, b1⟩⟩ := @hslChans_bounds d1 d2 d3 h2 h3
    obtain ⟨cr0, cr1⟩ := chan_byte_bounds rd r0 r1
    obtain ⟨cg0, cg1⟩ := chan_byte_bounds gd g0 g1
    obtain ⟨cb0, cb1⟩ := chan_byte_bounds bd b0 b1
    have hlen : ('#' :: (format02x (255 * pyInt (hslChans d1 d2 d3).1) ++
        format02x (255 * pyInt (hslChans d1 d2 d3).2.1) ++
        format02x (255 * pyInt (hslChans d1 d2 d3).2.2))).length = 7 :=
      base7_len cr0 cr1 cg0 cg1 cb0 cb1
    obtain ⟨⟨rd', r0', r1'⟩, ⟨gd', g0', g1'⟩, ⟨bd', b0', b1'⟩⟩ :=
      @hslChans_bounds d1' d2' d3' h2' h3'
    obtain ⟨cr0', cr1'⟩ := chan_byte_bounds rd' r0' r1'
    obtain ⟨cg0', cg1'⟩ := chan_byte_bounds gd' g0' g1'
    obtain ⟨cb0', cb1'⟩ := chan_byte_bounds bd' b0' b1'
    have hlen' : ('#' :: (format02x (255 * pyInt (hslChans d1' d2' d3').1) ++
        format02x (255 * pyInt (hslChans d1' d2' d3').2.1) ++
        format02x (255 * pyInt (hslChans d1' d2' d3').2.2))).length = 7 :=
      base7_len cr0' cr1' cg0' cg1' cb0' cb1'
    exact ⟨_, _, alpha_to_hex q, hlen, hlen', l2, la,
      try_match_override hA hd hn hle hlen
        (Or.inr (Or.inr ⟨match_hex_none hHn, match_rgb_none hRn, match_hsl_adjuster hL hA hn⟩)),
      try_match_override hA' hd hn hle hlen'
        (Or.inr (Or.inr
          ⟨match_hex_none hHn', match_rgb_none hRn', match_hsl_adjuster hL' hA' hn⟩))⟩

/-- C4 witness: two values with different bases and different embedded
alphas (`cc` and `99`) but the same modifier `alpha(0.2)` resolve to
their bases followed by one shared two-digit suffix; evaluating the
definitions shows that suffix is `33` (= `int (255*0.2)`), as in the
spec's example — not `cc` and not `99`. -/
theorem claim4_witness :
    (∃ suffix : List Char, suffix.length = 2 ∧ suffix.all isLowerHexDigit = true ∧
      try_match_color (lc "#112233cc alpha(0.2)") = Except.ok (lc "#112233" ++ suffix) ∧
      try_match_color (lc "#44556699 alpha(0.2)") = Except.ok (lc "#445566" ++ suffix)) ∧
    try_match_color (lc "#112233cc alpha(0.2)") = Except.ok (lc "#11223333") :=
  ⟨claim4_alpha_override.1 (lc "#112233cc alpha(0.2)") (lc "#44556699 alpha(0.2)")
      (lc "#112233") (lc "#445566") (lc "cc") (lc "99") ⟨2, 10⟩ (by decide) (by decide)
      (by decide) (by decide) (by decide) (by decide) (by decide) (by decide),
    by decide⟩

/-- C4 counterexample: a modifier `alpha(0)` does NOT determine the
resulting alpha byte — the embedded `cc` is kept, not replaced by
`00`. -/
theorem claim4_counterexample :
    try_match_color (lc "#112233cc alpha(0)") = Except.ok (lc "#112233cc") ∧
    lc "#112233cc" ≠ lc "#11223300" := by decide

/-- C9: a source document whose `globals` or `rules` field is absent makes
`parse` fail with a `KeyError` that names a missing required field
(`globals` is checked first), and no Theme record is produced. -/
theorem claim9_missing_fields (src : Source)
    (h : src.globals = Option.none ∨ src.rules = Option.none) :
    ∃ f, ((src.globals = Option.none ∧ f = "globals") ∨
        (src.globals ≠ Option.none ∧ src.rules = Option.none ∧ f = "rules")) ∧
      parse src = Except.error (PyErr.keyError f) ∧ ∀ t, parse src ≠ Except.ok t := by
  cases hg : src.globals with
  | none =>
    have hp : parse src = Except.error (PyErr.keyError "globals") := by
      unfold parse
      rw [hg]
    refine ⟨"globals", Or.inl ⟨rfl, rfl⟩, hp, ?_⟩
    intro t ht
    rw [hp] at ht
    exact Except.noConfusion ht
  | some g =>
    cases hr : src.rules with
    | none =>
      have hp : parse src = Except.error (PyErr.keyError "rules") := by
        unfold parse
        rw [hg, hr]
      refine ⟨"rules", Or.inr ⟨fun hc => Option.noConfusion hc, rfl, rfl⟩, hp, ?_⟩
      intro t ht
      rw [hp] at ht
      exact Except.noConfusion ht
    | some r =>
      rcases h with h | h
      · rw [hg] at h
        exact absurd h (by simp)
      · rw [hr] at h
        exact absurd h (by simp)

/-- C9 witness: a concrete source with `rules` present but `globals`
absent fails with `KeyError "globals"` and yields no Theme. -/
theorem claim9_witness :
    ∃ f, (((⟨Option.none, Option.none, Option.none, Option.none, some []⟩ : Source).globals =
          Option.none ∧ f = "globals") ∨
        ((⟨Option.none, Option.none, Option.none, Option.none, some []⟩ : Source).globals ≠
            Option.none ∧
          (⟨Option.none, Option.none, Option.none, Option.none, some []⟩ : Source).rules =
            Option.none ∧ f = "rules")) ∧
      parse ⟨Option.none, Option.none, Option.none, Option.none, some []⟩ =
        Except.error (PyErr.keyError f) ∧
      ∀ t, parse ⟨Option.none, Option.none, Option.none, Option.none, some []⟩ ≠ Except.ok t :=
  claim9_missing_fields _ (Or.inl rfl)

end Conv
